import Mathlib

/-!
Verification of the in-memory document collection engine (memdocstore) of the
go-cloud repository, together with its URL opener.

The Go source embedded here:
  * `collection.runAction`, `collection.update`, `add`, `collection.changeRevision`,
    `collection.checkRevision`, `getParentMap`, `getAtFieldPath` and
    `collection.RunActions` from the memdocstore engine;
  * `URLOpener.OpenCollectionURL` from `docstore/memdocstore/urls.go`.

Code of the repository that is only declared, not defined, under `src/`
(the codec `encodeDoc`/`encodeValue`/`decodeDoc`, `driver.UniqueString`,
`driver.GroupActions`, and the `gcerr` error classification) is modelled from
the spec; each such definition carries a doc comment starting
`Modelled from the spec:`.

Modelling conventions:
  * Go `map[string]interface{}` documents are association lists `DocMap`
    with map-like get/set/delete; a field that is Go `nil` is identified with
    an absent field (the engine treats the two identically everywhere it
    looks: `getParentMap`, `checkRevision`, `add`).
  * Go `int64` is `Int`; increment addition wraps explicitly (`wrap64`).
    The per-collection revision counter is an unbounded `Int`: its overflow
    would need 2^63 successful writes in one collection lifetime and is not
    modelled.
  * Go `float64` is modelled by exact rationals: the claims about floats
    concern the type-dispatch table of `add`, not IEEE rounding.
  * Document keys are Go `interface{}` values used as map keys, hence
    comparable scalars (Go panics on non-comparable keys); they are modelled
    by the scalar taxonomy `PrimKey`.
  * Go panics (nil-map assignment in `update`'s commit phase, the `.(int64)`
    assertion in `checkRevision`, an empty field path) are the `Res.panic`
    outcome.
-/

/-- The closed set of error kinds of the `gcerr` package (spec section 7),
plus `Unknown`, the classification of an error that was not built by
`gcerr.Newf` (for example a plain `fmt.Errorf` error). -/
inductive ErrCode where
  | OK
  | NotFound
  | AlreadyExists
  | InvalidArgument
  | FailedPrecondition
  | Internal
  | Canceled
  | Unknown
deriving DecidableEq

/-- A Go error value as the engine produces them: either a `gcerr.Error`
carrying a kind (built by `gcerr.Newf`; the dynamic parts of the formatted
message are elided), a plain formatted error (built by `fmt.Errorf` or
`errors.New`, carrying no kind), or the context-cancellation error
`ctx.Err()`. -/
inductive Err where
  | gc (code : ErrCode) (msg : String)
  | generic (msg : String)
  | canceled
deriving DecidableEq

/-- Modelled from the spec: the error classification `gcerrors.Code`
(not under `src/`). A `gcerr.Error` reports its kind; the context
cancellation error reports `Canceled`; any other error is `Unknown`. -/
def errCode : Err → ErrCode
  | .gc code _ => code
  | .generic _ => .Unknown
  | .canceled => .Canceled

/-- The outcome of running Go code that may return normally, return an
error, or panic. -/
inductive Res (α : Type) where
  | ok (a : α)
  | err (e : Err)
  | panic
deriving DecidableEq

/-- The canonical encoded-value taxonomy stored in documents (spec
section 3): 64-bit integer, 64-bit float (modelled exactly by `Rat`),
string, bool, byte sequence, timestamp (modelled by its nanosecond count),
sequence, and string-keyed mapping. -/
inductive Value where
  | vInt (n : Int)
  | vFloat (q : Rat)
  | vString (s : String)
  | vBool (b : Bool)
  | vBytes (bs : List Nat)
  | vTime (ns : Int)
  | vList (vs : List Value)
  | vMap (m : List (String × Value))

/-- A document in internal form: a mapping from field names to encoded
values (Go `map[string]interface{}`), modelled as an association list. -/
abbrev DocMap := List (String × Value)

/-- Map lookup: `m[k]`. Returns `none` both for an absent field and for a
field stored as Go `nil`. -/
def mapGet : DocMap → String → Option Value
  | [], _ => none
  | (k, v) :: t, s => if k = s then some v else mapGet t s

/-- Map update `m[k] = v`: replace the binding of `k`, or append one. -/
def mapSet : DocMap → String → Value → DocMap
  | [], k, v => [(k, v)]
  | (k', v') :: t, k, v => if k' = k then (k', v) :: t else (k', v') :: mapSet t k v

/-- Map deletion `delete(m, k)`. -/
def mapDel : DocMap → String → DocMap
  | [], _ => []
  | (k', v') :: t, k => if k' = k then t else (k', v') :: mapDel t k

/-- A primary key: a comparable Go value used as a key of the
`map[interface{}]map[string]interface{}` document map. Go panics when an
interface value that is not comparable (a map or a slice) is used as a map
key, so keys are drawn from the scalar taxonomy. -/
inductive PrimKey where
  | kString (s : String)
  | kInt (n : Int)
  | kFloat (q : Rat)
  | kBool (b : Bool)
deriving DecidableEq

/-- A key embeds into the value taxonomy (used when a generated key is
written back into the document's key field). -/
def PrimKey.toValue : PrimKey → Value
  | .kString s => .vString s
  | .kInt n => .vInt n
  | .kFloat q => .vFloat q
  | .kBool b => .vBool b

/-- The key-to-document map `c.docs`. The Go map key is `a.Key`, an
`interface{}` that may be `nil`, hence `Option PrimKey`. -/
abbrev Docs := List (Option PrimKey × DocMap)

/-- Lookup `c.docs[k]`. -/
def docsGet : Docs → Option PrimKey → Option DocMap
  | [], _ => none
  | (k', d) :: t, k => if k = k' then some d else docsGet t k

/-- Go `delete(c.docs, k)`: remove every binding of `k` (a Go map holds at
most one). -/
def docsDel (ds : Docs) (k : Option PrimKey) : Docs :=
  ds.filter (fun e => ¬(k = e.1))

/-- Assignment `c.docs[k] = d`: bind `k` to `d`, keeping at most one binding per key. -/
def docsSet (ds : Docs) (k : Option PrimKey) (d : DocMap) : Docs :=
  (k, d) :: docsDel ds k

/-- Wrapping 64-bit two's-complement addition result, `Go int64` overflow
semantics. -/
def wrap64 (n : Int) : Int :=
  (n + 2 ^ 63) % 2 ^ 64 - 2 ^ 63

/-- Function `add` from the engine: add two encoded numbers, the stored value `x`
(absent/nil is `none`) and the encoded increment amount `y`.
A nil `x` yields `y`; int64 and float64 combine per the type table; any
other `x` is `InvalidArgument`; a bad `y` against a numeric `x` is
`Internal`. -/
def add : Option Value → Value → Res Value
  | none, y => .ok y
  | some (.vInt x), y =>
    match y with
    | .vInt yn => .ok (.vInt (wrap64 (x + yn)))
    | .vFloat yq => .ok (.vFloat ((x : Rat) + yq))
    | _ => .err (.gc .Internal "bad increment aount type")
  | some (.vFloat x), y =>
    match y with
    | .vInt yn => .ok (.vFloat (x + (yn : Rat)))
    | .vFloat yq => .ok (.vFloat (x + yq))
    | _ => .err (.gc .Internal "bad increment aount type")
  | some _, _ => .err (.gc .InvalidArgument "value being incremented not int64 or float64")

/-- The descent loop of `getParentMap` over the non-final path components.
A nil (or absent) component stops the descent with a nil map (the
`create=false` behaviour; `create=true` is used by no embedded operation);
a non-map component fails with `InvalidArgument`. -/
def getParentMapAux : DocMap → List String → Res (Option DocMap)
  | m, [] => .ok (some m)
  | m, k :: rest =>
    match mapGet m k with
    | none => .ok none
    | some (.vMap m2) => getParentMapAux m2 rest
    | some _ => .err (.gc .InvalidArgument "invalid field path")

/-- Go `getParentMap(m, fp, false)`: the map that directly contains the field
path, i.e. the value of `m` at `fp` minus its last component. Go indexes
`fp[:len(fp)-1]` and later `fp[len(fp)-1]`, which panics on an empty path. -/
def getParentMap : DocMap → List String → Res (Option DocMap)
  | _, [] => .panic
  | m, fp => getParentMapAux m fp.dropLast

/-- Reading `m[k]` on a possibly nil Go map: a nil map yields the zero
value. -/
def parentGet : Option DocMap → String → Option Value
  | none, _ => none
  | some m, k => mapGet m k

/-- Function `getAtFieldPath`: the value of `m` at `fp`, or `none`. -/
def getAtFieldPath (m : DocMap) (fp : List String) : Res (Option Value) :=
  match getParentMap m fp with
  | .err e => .err e
  | .panic => .panic
  | .ok pm => .ok (parentGet pm (fp.getLastD ""))

/-- The value carried by a `driver.Mod`: Go distinguishes a `driver.IncOp`
marker, a non-nil value to set, and nil (delete the field). -/
inductive ModValue where
  | inc (amount : Value)
  | set (v : Value)
  | del

/-- Named `Mod` in the source (the name collides with the `Mod` class here): one field-path modification of an Update. -/
structure DriverMod where
  fieldPath : List String
  value : ModValue

/-- Lexicographic string comparison by code point. Go's `<` on strings
compares UTF-8 bytes, and byte-wise UTF-8 order coincides with code-point
order. -/
def strLess : List Char → List Char → Bool
  | [], [] => false
  | [], _ :: _ => true
  | _ :: _, [] => false
  | a :: as, b :: bs =>
    if a.toNat < b.toNat then true
    else if b.toNat < a.toNat then false
    else strLess as bs

/-- The comparison of the sort in `collection.update`:
`mods[i].FieldPath[0] < mods[j].FieldPath[0]`. An empty path would make
Go's indexing panic; it is given the empty-string key (planning panics on
it later, see `planMod`). -/
def modLess (a b : DriverMod) : Bool :=
  strLess (a.fieldPath.headD "").data (b.fieldPath.headD "").data

/-- Insert into a list sorted by `modLess`. -/
def sortModsInsert (a : DriverMod) : List DriverMod → List DriverMod
  | [] => [a]
  | b :: t => if modLess b a then b :: sortModsInsert a t else a :: b :: t

/-- Go `sort.Slice(mods, ...)` by first field-path component. Go's sort is
unstable; this model sorts stably. No embedded claim depends on the order
of mods sharing a first component. -/
def sortMods : List DriverMod → List DriverMod
  | [] => []
  | a :: t => sortModsInsert a (sortMods t)

/-- A `guaranteedMod` of `collection.update`'s planning phase. Go stores
the parent-map pointer; the model stores the parent path (the mod's field
path minus its last component) together with whether `getParentMap`
resolved it to nil, and replays the commit-phase pointer writes by path
(see `writeAtParent`). -/
structure GMod where
  parentNil : Bool
  parentPath : List String
  key : String
  encodedValue : Option Value

/-- Plan one modification: resolve its parent map with `create=false` and
compute the encoded value (for an increment, `add` against the current
value; the codec's `encodeValue` on an already-encoded value is the
identity). A nil mod value leaves `encodedValue` nil (a planned delete). -/
def planMod (doc : DocMap) (mod : DriverMod) : Res GMod :=
  match mod.fieldPath with
  | [] => .panic
  | _ :: _ =>
    match getParentMap doc mod.fieldPath with
    | .err e => .err e
    | .panic => .panic
    | .ok pm =>
      let key := mod.fieldPath.getLastD ""
      let parentNil := pm.isNone
      let parentPath := mod.fieldPath.dropLast
      match mod.value with
      | .inc amount =>
        match add (parentGet pm key) amount with
        | .err e => .err e
        | .panic => .panic
        | .ok v => .ok ⟨parentNil, parentPath, key, some v⟩
      | .set v => .ok ⟨parentNil, parentPath, key, some v⟩
      | .del => .ok ⟨parentNil, parentPath, key, none⟩

/-- The planning loop of `collection.update`: plan each modification in
order, stopping at the first failure. No part of this phase mutates the
document. -/
def planMods (doc : DocMap) : List DriverMod → Res (List GMod)
  | [] => .ok []
  | mod :: rest =>
    match planMod doc mod with
    | .err e => .err e
    | .panic => .panic
    | .ok g =>
      match planMods doc rest with
      | .err e => .err e
      | .panic => .panic
      | .ok gs => .ok (g :: gs)

/-- Replay one commit-phase pointer write by path: set (`v = some`) or
delete (`v = none`) the key `k` inside the map at `parentPath`. When the
path no longer resolves to a map — possible only when an earlier commit of
the same batch detached it, which requires one mod's path to be a proper
extension of another's, a shape the portable layer rejects — the Go write
lands in a map no longer reachable from the document, so the document is
returned unchanged. -/
def writeAtParent (doc : DocMap) (parentPath : List String) (k : String) (v : Option Value) : DocMap :=
  match parentPath with
  | [] =>
    match v with
    | some v' => mapSet doc k v'
    | none => mapDel doc k
  | p :: rest =>
    match mapGet doc p with
    | some (.vMap m2) => mapSet doc p (.vMap (writeAtParent m2 rest k v))
    | _ => doc

/-- The commit phase of `collection.update`: execute the guaranteed mods.
A planned delete on a nil parent map is a no-op (`delete` on a nil Go map);
a planned set on a nil parent map is Go's assignment to an entry of a nil
map — a panic. -/
def commitMods (doc : DocMap) : List GMod → Res DocMap
  | [] => .ok doc
  | g :: rest =>
    match g.encodedValue with
    | none => commitMods (writeAtParent doc g.parentPath g.key none) rest
    | some v =>
      if g.parentNil then .panic
      else commitMods (writeAtParent doc g.parentPath g.key (some v)) rest

/-- Method `collection.changeRevision`: pre-increment the collection's revision
counter and write the new value into the document's revision field. -/
def changeRevision (doc : DocMap) (revField : String) (curRevision : Int) : DocMap × Int :=
  (mapSet doc revField (.vInt (curRevision + 1)), curRevision + 1)

/-- Method `collection.update`: sort the mods by first path component, plan them
all (any failure aborts with no mutation), commit the plan, then stamp a
fresh revision. Returns the updated document and the new counter. -/
def update (doc : DocMap) (mods : List DriverMod) (revField : String) (curRevision : Int) :
    Res (DocMap × Int) :=
  match planMods doc (sortMods mods) with
  | .err e => .err e
  | .panic => .panic
  | .ok gmods =>
    match commitMods doc gmods with
    | .err e => .err e
    | .panic => .panic
    | .ok doc2 => .ok (changeRevision doc2 revField curRevision)

/-- Method `collection.checkRevision`: with no stored document the check is
bypassed. Otherwise the stored revision is read with a `.(int64)` type
assertion (a panic if it is not an int64). A caller revision that is
absent or nil skips the check; a non-int64 one is `InvalidArgument`; a
mismatched int64 is `FailedPrecondition`. -/
def checkRevision (arg : DocMap) (current : Option DocMap) (revField : String) : Res Unit :=
  match current with
  | none => .ok ()
  | some cur =>
    match mapGet cur revField with
    | some (.vInt curRev) =>
      match mapGet arg revField with
      | none => .ok ()
      | some r =>
        match r with
        | .vInt wantRev =>
          if wantRev = curRev then .ok ()
          else .err (.gc .FailedPrecondition "mismatched revisions")
        | _ => .err (.gc .InvalidArgument "revision field is not an int64")
    | _ => .panic

/-- Modelled from the spec: the codec collaborator's `decodeDoc` needs a
set-at-field-path with create-on-write (spec section 4.A); intermediate
maps are created as needed. -/
def setPath (m : DocMap) (fp : List String) (v : Value) : DocMap :=
  match fp with
  | [] => m
  | [k] => mapSet m k v
  | k :: rest =>
    match mapGet m k with
    | some (.vMap m2) => mapSet m k (.vMap (setPath m2 rest v))
    | _ => mapSet m k (.vMap (setPath [] rest v))

/-- Modelled from the spec: one step of `decodeDoc`'s selective copy — copy
the value at one requested field path from the stored document into the
caller's destination document, skipping an absent path. -/
def copyPath (cur dest : DocMap) (fp : List String) : Res DocMap :=
  match getAtFieldPath cur fp with
  | .err e => .err e
  | .panic => .panic
  | .ok none => .ok dest
  | .ok (some v) => .ok (setPath dest fp v)

/-- Modelled from the spec: `decodeDoc`'s loop over the requested field
paths. -/
def copyPaths (cur : DocMap) (dest : DocMap) : List (List String) → Res DocMap
  | [] => .ok dest
  | fp :: rest =>
    match copyPath cur dest fp with
    | .err e => .err e
    | .panic => .panic
    | .ok dest2 => copyPaths cur dest2 rest

/-- Modelled from the spec: the codec collaborator's `decodeDoc` (not under
`src/`): with no field paths requested, copy the full stored document into
the caller's document; otherwise copy exactly the requested paths plus the
revision field, merging into the caller's destination mapping. -/
def decodeDoc (current dest : DocMap) (fps : List (List String)) (revField : String) :
    Res DocMap :=
  if fps.isEmpty then .ok current
  else
    match copyPaths current dest fps with
    | .err e => .err e
    | .panic => .panic
    | .ok d2 =>
      match mapGet current revField with
      | some v => .ok (mapSet d2 revField v)
      | none => .ok d2

/-- The length of a stored key when it is a string (used to build a fresh
key). -/
def keyStrLen : Option PrimKey → Nat
  | some (.kString s) => s.length
  | _ => 0

/-- The longest string key currently in use. -/
def maxKeyLen (ds : Docs) : Nat :=
  ds.foldr (fun e acc => max (keyStrLen e.1) acc) 0

/-- Modelled from the spec: `driver.UniqueString` (not under `src/`)
returns a fresh unique string for a generated document key. The source
draws a UUID; the model deterministically picks a string strictly longer
than every string key in use, which therefore collides with no existing
key. -/
def uniqueString (ds : Docs) : String :=
  String.mk (List.replicate (maxKeyLen ds + 1) 'k')

/-- Modelled from the spec: `docstore.DefaultRevisionField`, the default
fixed revision-field name supplied by the collaborator. -/
def DefaultRevisionField : String := "DocstoreRevision"

/-- The collection state: configured key field, revision-field name, the
key-to-document mapping and the monotonic revision counter. The
key-extractor (`keyFunc`) variant is not modelled: every claim uses
field-based keying. -/
structure Collection where
  keyField : String
  revisionField : String
  docs : Docs
  curRevision : Int

/-- Function `newCollection`: a key strategy is required (`InvalidArgument`
otherwise); an empty revision-field option falls back to the default name;
the document map starts empty and the revision counter starts at zero. -/
def newCollection (keyField revisionField : String) : Except Err Collection :=
  if keyField = "" then
    .error (.gc .InvalidArgument "must provide either keyField or keyFunc")
  else
    .ok ⟨keyField, if revisionField = "" then DefaultRevisionField else revisionField, [], 0⟩

/-- The `driver.ActionKind` enum, constructors in source order. -/
inductive ActionKind where
  | create
  | replace
  | put
  | get
  | delete
  | update
deriving DecidableEq

/-- A `driver.Action` (the name `Action` is taken here): kind, document, pre-extracted key (`nil` possible),
field paths (Get only), modifications (Update only), and the index in the
original action list. -/
structure DriverAction where
  kind : ActionKind
  doc : DocMap
  key : Option PrimKey
  fieldPaths : List (List String)
  mods : List DriverMod
  index : Nat

/-- The result of one action: the Go return value, the collection state
after the call, and the caller's document and key after the call (the
engine writes the generated key and the fresh revision back into the
caller's document). -/
structure StepRes where
  out : Res Unit
  coll : Collection
  doc : DocMap
  key : Option PrimKey

/-- The shared tail of the `Create`/`Replace`/`Put` cases of `runAction`
(Go's `fallthrough`): revision check, encode (the codec's `encodeDoc` of an
already-encoded map document is a copy), stamp a fresh revision, write the
new revision back into the caller's document, and store. -/
def putCase (c : Collection) (key : Option PrimKey) (doc : DocMap)
    (current : Option DocMap) : StepRes :=
  match checkRevision doc current c.revisionField with
  | .err e => ⟨.err e, c, doc, key⟩
  | .panic => ⟨.panic, c, doc, key⟩
  | .ok _ =>
    let stamped := changeRevision doc c.revisionField c.curRevision
    ⟨.ok (), ⟨c.keyField, c.revisionField, docsSet c.docs key stamped.1, stamped.2⟩,
      mapSet doc c.revisionField (.vInt stamped.2), key⟩

/-- Method `collection.runAction`: execute a single action. The context is checked
before anything else; then the current document is looked up (only when the
action carries a key); `Replace`, `Update` and `Get` fail `NotFound` on an
absent document; then the action kind dispatches. -/
def runAction (ctxCanceled : Bool) (c : Collection) (a : DriverAction) : StepRes :=
  if ctxCanceled then ⟨.err .canceled, c, a.doc, a.key⟩
  else
    let current : Option DocMap := if a.key.isSome then docsGet c.docs a.key else none
    if current.isNone ∧ (a.kind = .replace ∨ a.kind = .update ∨ a.kind = .get) then
      ⟨.err (.gc .NotFound "document with key does not exist"), c, a.doc, a.key⟩
    else
      match a.kind with
      | .create =>
        match current with
        | some _ => ⟨.err (.gc .AlreadyExists "Create: document with key exists"), c, a.doc, a.key⟩
        | none =>
          match a.key with
          | none =>
            let g := uniqueString c.docs
            putCase c (some (.kString g)) (mapSet a.doc c.keyField (.vString g)) none
          | some _ => putCase c a.key a.doc none
      | .replace => putCase c a.key a.doc current
      | .put => putCase c a.key a.doc current
      | .delete =>
        match checkRevision a.doc current c.revisionField with
        | .err e => ⟨.err e, c, a.doc, a.key⟩
        | .panic => ⟨.panic, c, a.doc, a.key⟩
        | .ok _ => ⟨.ok (), ⟨c.keyField, c.revisionField, docsDel c.docs a.key, c.curRevision⟩, a.doc, a.key⟩
      | .update =>
        match current with
        | none => ⟨.err (.gc .NotFound "document with key does not exist"), c, a.doc, a.key⟩
        | some cur =>
          match checkRevision a.doc (some cur) c.revisionField with
          | .err e => ⟨.err e, c, a.doc, a.key⟩
          | .panic => ⟨.panic, c, a.doc, a.key⟩
          | .ok _ =>
            match update cur a.mods c.revisionField c.curRevision with
            | .err e => ⟨.err e, c, a.doc, a.key⟩
            | .panic => ⟨.panic, c, a.doc, a.key⟩
            | .ok du =>
              ⟨.ok (), ⟨c.keyField, c.revisionField, docsSet c.docs a.key du.1, du.2⟩,
                mapSet a.doc c.revisionField (.vInt du.2), a.key⟩
      | .get =>
        match current with
        | none => ⟨.err (.gc .NotFound "document with key does not exist"), c, a.doc, a.key⟩
        | some cur =>
          match decodeDoc cur a.doc a.fieldPaths c.revisionField with
          | .err e => ⟨.err e, c, a.doc, a.key⟩
          | .panic => ⟨.panic, c, a.doc, a.key⟩
          | .ok d2 => ⟨.ok (), c, d2, a.key⟩

/-- The `driver.RunActionsOptions` block: the optional `BeforeDo` callback, which
receives the capability probe and may veto the whole list with an error. -/
structure RunOpts where
  beforeDo : Option ((Value → Bool) → Option Err)

/-- The capability probe the memory driver passes to `BeforeDo`:
`func(interface{}) bool { return false }`. -/
def memProbe : Value → Bool := fun _ => false

/-- Write kinds (everything but `Get`). -/
def isWriteKind : ActionKind → Bool
  | .get => false
  | _ => true

/-- Does a write to key `k` appear among the first `i` actions? -/
def writesKeyBefore (actions : List DriverAction) (i : Nat) (k : Option PrimKey) : Bool :=
  (actions.take i).any (fun b => isWriteKind b.kind && decide (b.key = k))

/-- Does a `Get` of key `k` appear after position `i`? -/
def getsKeyAfter (actions : List DriverAction) (i : Nat) (k : Option PrimKey) : Bool :=
  (actions.drop (i + 1)).any (fun b => decide (b.kind = .get) && decide (b.key = k))

/-- Modelled from the spec: `driver.GroupActions` (not under `src/`)
partitions the list into four groups run in order — Gets seeing no earlier
write to their key, writes that precede a Get of their key, the remaining
writes, and Gets of keys written earlier in the batch. -/
def groupActions (actions : List DriverAction) :
    List DriverAction × List DriverAction × List DriverAction × List DriverAction :=
  let e := actions.enum
  let beforeGets := (e.filter fun p =>
    decide (p.2.kind = .get) && !writesKeyBefore actions p.1 p.2.key).map Prod.snd
  let afterGets := (e.filter fun p =>
    decide (p.2.kind = .get) && writesKeyBefore actions p.1 p.2.key).map Prod.snd
  let getWrites := (e.filter fun p =>
    isWriteKind p.2.kind && getsKeyAfter actions p.1 p.2.key).map Prod.snd
  let restWrites := (e.filter fun p =>
    isWriteKind p.2.kind && !getsKeyAfter actions p.1 p.2.key).map Prod.snd
  (beforeGets, getWrites, restWrites, afterGets)

/-- The per-list error slots (`errs := make([]error, len(actions))`),
the evolving collection, and whether some goroutine panicked. -/
structure RunState where
  errs : List (Option Err)
  coll : Collection
  panicked : Bool

/-- Run one group of actions. The source runs a group's actions in
concurrent goroutines, each writing only its own error slot, and the
collection mutex serialises their critical sections; the model runs them in
list order. Each action records its error at its original index. -/
def runGroup (ctxCanceled : Bool) : RunState → List DriverAction → RunState
  | st, [] => st
  | st, a :: rest =>
    if st.panicked then st
    else
      let r := runAction ctxCanceled st.coll a
      match r.out with
      | .ok _ => runGroup ctxCanceled ⟨st.errs, r.coll, false⟩ rest
      | .err e => runGroup ctxCanceled ⟨st.errs.set a.index (some e), r.coll, false⟩ rest
      | .panic => ⟨st.errs, r.coll, true⟩

/-- Function `driver.NewActionListError`: the ordered (index, error) pairs of the
non-nil slots. -/
def NewActionListError (errs : List (Option Err)) : List (Nat × Err) :=
  errs.enum.filterMap fun p => p.2.map fun e => (p.1, e)

/-- The observable outcome of `RunActions`: either some action panicked
(crashing the program), or an action-list error together with the final
collection state. -/
inductive RunActionsResult where
  | panicked
  | done (ale : List (Nat × Err)) (coll : Collection)

/-- The grouping-and-running tail of `RunActions`. -/
def runAll (ctxCanceled : Bool) (c : Collection) (actions : List DriverAction)
    (errs0 : List (Option Err)) : RunActionsResult :=
  let g := groupActions actions
  let st1 := runGroup ctxCanceled ⟨errs0, c, false⟩ g.1
  let st2 := runGroup ctxCanceled st1 g.2.1
  let st3 := runGroup ctxCanceled st2 g.2.2.1
  let st4 := runGroup ctxCanceled st3 g.2.2.2
  if st4.panicked then .panicked else .done (NewActionListError st4.errs) st4.coll

/-- Method `collection.RunActions`: when `BeforeDo` is present it is invoked — by
the shape of this definition exactly once, before any group runs — with the
`memProbe` capability probe; a non-nil error is copied into every slot and
returned immediately. Otherwise the four groups run in order. -/
def RunActions (ctxCanceled : Bool) (c : Collection) (actions : List DriverAction)
    (opts : RunOpts) : RunActionsResult :=
  match opts.beforeDo with
  | some f =>
    match f memProbe with
    | some e => .done (NewActionListError (List.replicate actions.length (some e))) c
    | none => runAll ctxCanceled c actions (List.replicate actions.length none)
  | none => runAll ctxCanceled c actions (List.replicate actions.length none)

/-- A parsed URL as `OpenCollectionURL` consumes it: host, path and query
parameters (`u.Host`, `u.Path`, `u.Query()`). -/
structure URLModel where
  host : String
  path : String
  query : List (String × String)

/-- A registry entry of the URL opener: the key-field name the collection
was opened with, and the collection. -/
structure UrlColl where
  keyName : String
  coll : Collection

/-- The `URLOpener`: the registry mapping collection names to
already-opened collections. -/
structure URLOpener where
  collections : List (String × UrlColl)

/-- Registry lookup `o.collections[collName]`. -/
def urlCollsGet : List (String × UrlColl) → String → Option UrlColl
  | [], _ => none
  | (n, uc) :: t, name => if n = name then some uc else urlCollsGet t name

/-- Go `strings.HasPrefix(keyName, "/")` followed by `keyName[1:]` (a slash is
one byte). -/
def stripLeadingSlash (s : String) : String :=
  match s.data with
  | '/' :: rest => String.mk rest
  | _ => s

/-- Go `strings.ContainsRune(keyName, '/')`. -/
def containsSlash (s : String) : Bool :=
  s.data.any fun ch => ch = '/'

/-- Method `URLOpener.OpenCollectionURL`: reject any query parameter, an empty
collection name, and an empty or slash-containing key field (all with
plain `fmt.Errorf` errors carrying no gcerr kind); then either return the
already-registered collection (failing when its key-field name differs) or
open a fresh one and register it. Returns the collection and the opener's
registry state after the call. -/
def OpenCollectionURL (o : URLOpener) (u : URLModel) : Except Err (Collection × URLOpener) :=
  if ¬u.query.isEmpty then .error (.generic "invalid query parameter")
  else
    let collName := u.host
    if collName = "" then .error (.generic "empty collection name")
    else
      let keyName := stripLeadingSlash u.path
      if keyName = "" ∨ containsSlash keyName then
        .error (.generic "invalid key name (must be non-empty and have no slashes)")
      else
        match urlCollsGet o.collections collName with
        | none =>
          match newCollection keyName "" with
          | .error e => .error e
          | .ok coll => .ok (coll, ⟨o.collections ++ [(collName, ⟨keyName, coll⟩)]⟩)
        | some ucoll =>
          if ucoll.keyName = keyName then .ok (ucoll.coll, o)
          else .error (.generic "key name does not equal existing key name")

/-- The four action kinds that stamp a fresh revision on success
(`Create`, `Put`, `Replace`, `Update`) — the writes of the revision
invariant. -/
def stampsRevision : ActionKind → Bool
  | .create | .put | .replace | .update => true
  | _ => false

/-- Run a list of actions sequentially (each action's critical section is
atomic under the collection mutex), keeping the collection state. -/
def execList (c : Collection) : List DriverAction → Collection
  | [] => c
  | a :: rest => execList (runAction false c a).coll rest

/-- The revision invariant of spec section 3: the counter is nonnegative
and every stored document's revision field holds an int64 that is positive
and at most the counter. -/
def RevInv (c : Collection) : Prop :=
  0 ≤ c.curRevision ∧
  ∀ (k : Option PrimKey) (d : DocMap), docsGet c.docs k = some d →
    ∃ n : Int, mapGet d c.revisionField = some (.vInt n) ∧ 0 < n ∧ n ≤ c.curRevision

/-! ### Map and document-map lemmas -/

theorem mapGet_mapSet_self (m : DocMap) (k : String) (v : Value) :
    mapGet (mapSet m k v) k = some v := by
  induction m with
  | nil => simp [mapSet, mapGet]
  | cons e t ih =>
    obtain ⟨k', v'⟩ := e
    by_cases h : k' = k
    · simp [mapSet, mapGet, h]
    · simp [mapSet, mapGet, h, ih]

theorem docsGet_docsDel_self (ds : Docs) (k : Option PrimKey) :
    docsGet (docsDel ds k) k = none := by
  induction ds with
  | nil => simp [docsDel, docsGet]
  | cons e t ih =>
    obtain ⟨k', d⟩ := e
    by_cases h : k = k'
    · simpa [docsDel, h] using ih
    · simpa [docsDel, docsGet, h] using ih

theorem docsGet_docsDel_ne (ds : Docs) (k k' : Option PrimKey) (h : k' ≠ k) :
    docsGet (docsDel ds k) k' = docsGet ds k' := by
  induction ds with
  | nil => simp [docsDel]
  | cons e t ih =>
    obtain ⟨k2, d⟩ := e
    by_cases h2 : k = k2
    · subst h2
      simpa [docsDel, docsGet, h] using ih
    · by_cases h3 : k' = k2 <;>
        · simp only [docsDel, List.filter_cons, h2, decide_not] at *
          simp [docsGet, h3, ih]

theorem docsGet_docsSet_self (ds : Docs) (k : Option PrimKey) (d : DocMap) :
    docsGet (docsSet ds k d) k = some d := by
  simp [docsSet, docsGet]

theorem docsGet_docsSet_ne (ds : Docs) (k k' : Option PrimKey) (d : DocMap) (h : k' ≠ k) :
    docsGet (docsSet ds k d) k' = docsGet ds k' := by
  simp [docsSet, docsGet, h, docsGet_docsDel_ne ds k k' h]

theorem docsDel_of_docsGet_none (ds : Docs) (k : Option PrimKey) (h : docsGet ds k = none) :
    docsDel ds k = ds := by
  induction ds with
  | nil => simp [docsDel]
  | cons e t ih =>
    obtain ⟨k', d⟩ := e
    by_cases h2 : k = k'
    · simp [docsGet, h2] at h
    · simp only [docsGet, if_neg h2] at h
      have ht := ih h
      simp only [docsDel] at ht ⊢
      rw [List.filter_cons, ht, if_pos]
      simp [h2]

theorem docsDel_docsDel (ds : Docs) (k : Option PrimKey) :
    docsDel (docsDel ds k) k = docsDel ds k := by
  simp [docsDel, List.filter_filter]

/-! ### Claim C4 — increment addition type table -/

/-- Claim C4: increment addition obeys the type table: absent + x = x;
int64 + int64 is the int64 (wrapping) sum; int64 + float64, float64 + int64
and float64 + float64 are the float64 sum; any other left operand fails
with `InvalidArgument`, and any other right operand against a valid
(numeric) left operand fails with `Internal`. -/
theorem claim_C4_increment_add_table :
    (∀ y : Value, add none y = .ok y) ∧
    (∀ a b : Int, add (some (.vInt a)) (.vInt b) = .ok (.vInt (wrap64 (a + b)))) ∧
    (∀ (a : Int) (q : Rat), add (some (.vInt a)) (.vFloat q) = .ok (.vFloat ((a : Rat) + q))) ∧
    (∀ (q : Rat) (b : Int), add (some (.vFloat q)) (.vInt b) = .ok (.vFloat (q + (b : Rat)))) ∧
    (∀ q r : Rat, add (some (.vFloat q)) (.vFloat r) = .ok (.vFloat (q + r))) ∧
    (∀ x y : Value, (∀ n : Int, x ≠ .vInt n) → (∀ q : Rat, x ≠ .vFloat q) →
      add (some x) y = .err (.gc .InvalidArgument "value being incremented not int64 or float64")) ∧
    (∀ x y : Value, ((∃ n : Int, x = .vInt n) ∨ (∃ q : Rat, x = .vFloat q)) →
      (∀ n : Int, y ≠ .vInt n) → (∀ q : Rat, y ≠ .vFloat q) →
      add (some x) y = .err (.gc .Internal "bad increment aount type")) := by
  refine ⟨fun y => rfl, fun a b => rfl, fun a q => rfl, fun q b => rfl, fun q r => rfl, ?_, ?_⟩
  · intro x y hni hnf
    cases x with
    | vInt n => exact absurd rfl (hni n)
    | vFloat q => exact absurd rfl (hnf q)
    | vString s => rfl
    | vBool b => rfl
    | vBytes bs => rfl
    | vTime ns => rfl
    | vList vs => rfl
    | vMap m => rfl
  · intro x y hx hni hnf
    rcases hx with ⟨n, rfl⟩ | ⟨q, rfl⟩ <;>
      cases y <;> first
        | rfl
        | exact absurd rfl (hni _)
        | exact absurd rfl (hnf _)

/-- Witness for C4 at concrete inputs: 2 + 3 = 5, a string left operand is
`InvalidArgument`, a bool right operand against an int64 left operand is
`Internal`. -/
theorem claim_C4_witness :
    add (some (.vInt 2)) (.vInt 3) = .ok (.vInt (wrap64 (2 + 3))) ∧
    wrap64 (2 + 3) = 5 ∧
    add (some (.vString "s")) (.vInt 1) =
      .err (.gc .InvalidArgument "value being incremented not int64 or float64") ∧
    add (some (.vInt 2)) (.vBool true) = .err (.gc .Internal "bad increment aount type") :=
  ⟨claim_C4_increment_add_table.2.1 2 3, by decide,
    claim_C4_increment_add_table.2.2.2.2.2.1 (.vString "s") (.vInt 1)
      (fun n h => Value.noConfusion h) (fun q h => Value.noConfusion h),
    claim_C4_increment_add_table.2.2.2.2.2.2 (.vInt 2) (.vBool true) (Or.inl ⟨2, rfl⟩)
      (fun n h => Value.noConfusion h) (fun q h => Value.noConfusion h)⟩

/-! ### Claim C3 — revision check -/

/-- Claim C3: with no stored document the revision check is bypassed (Put's
insert branch). With a stored document (whose revision field holds `n`), an
absent (or nil) caller revision skips the check, a present non-int64 one
fails `InvalidArgument`, a present int64 different from `n` fails
`FailedPrecondition`, and a matching one passes. For every Put, Replace,
Delete or Update action on a stored document, a failing check makes the
action return that error with the collection untouched. -/
theorem claim_C3_revision_check (arg cur : DocMap) (rf : String) (n : Int)
    (hstored : mapGet cur rf = some (.vInt n)) :
    (checkRevision arg none rf = .ok ()) ∧
    (mapGet arg rf = none → checkRevision arg (some cur) rf = .ok ()) ∧
    (∀ v : Value, mapGet arg rf = some v → (∀ m : Int, v ≠ .vInt m) →
      checkRevision arg (some cur) rf =
        .err (.gc .InvalidArgument "revision field is not an int64")) ∧
    (∀ w : Int, mapGet arg rf = some (.vInt w) → w ≠ n →
      checkRevision arg (some cur) rf =
        .err (.gc .FailedPrecondition "mismatched revisions")) ∧
    (mapGet arg rf = some (.vInt n) → checkRevision arg (some cur) rf = .ok ()) ∧
    (∀ (c : Collection) (a : DriverAction) (k : PrimKey) (cur2 : DocMap) (e : Err),
      (a.kind = .put ∨ a.kind = .replace ∨ a.kind = .delete ∨ a.kind = .update) →
      a.key = some k → docsGet c.docs (some k) = some cur2 →
      checkRevision a.doc (some cur2) c.revisionField = .err e →
      runAction false c a = ⟨.err e, c, a.doc, a.key⟩) := by
  refine ⟨rfl, ?_, ?_, ?_, ?_, ?_⟩
  · intro h
    simp [checkRevision, hstored, h]
  · intro v hv hne
    cases v with
    | vInt m => exact absurd rfl (hne m)
    | vFloat q => simp [checkRevision, hstored, hv]
    | vString s => simp [checkRevision, hstored, hv]
    | vBool b => simp [checkRevision, hstored, hv]
    | vBytes bs => simp [checkRevision, hstored, hv]
    | vTime ns => simp [checkRevision, hstored, hv]
    | vList vs => simp [checkRevision, hstored, hv]
    | vMap m => simp [checkRevision, hstored, hv]
  · intro w hw hne
    simp [checkRevision, hstored, hw, hne]
  · intro h
    simp [checkRevision, hstored, h]
  · intro c a k cur2 e hkind hk hd2 hcr
    rcases hkind with h | h | h | h <;> simp [runAction, h, hk, hd2, putCase, hcr]

/-- Witness for C3 at concrete inputs: stored revision 2; an absent caller
revision passes, a string one is `InvalidArgument`, revision 1 is
`FailedPrecondition`, revision 2 passes, and the check is bypassed with no
stored document. -/
theorem claim_C3_witness :
    (checkRevision [("x", .vInt 9)] none "rev" = .ok ()) ∧
    (checkRevision [("x", .vInt 9)] (some [("rev", .vInt 2)]) "rev" = .ok ()) ∧
    (checkRevision [("rev", .vString "two")] (some [("rev", .vInt 2)]) "rev" =
      .err (.gc .InvalidArgument "revision field is not an int64")) ∧
    (checkRevision [("rev", .vInt 1)] (some [("rev", .vInt 2)]) "rev" =
      .err (.gc .FailedPrecondition "mismatched revisions")) ∧
    (checkRevision [("rev", .vInt 2)] (some [("rev", .vInt 2)]) "rev" = .ok ()) ∧
    (runAction false ⟨"name", "rev", [(some (.kString "b"), [("rev", .vInt 2)])], 2⟩
        ⟨.put, [("rev", .vInt 1)], some (.kString "b"), [], [], 0⟩ =
      ⟨.err (.gc .FailedPrecondition "mismatched revisions"),
        ⟨"name", "rev", [(some (.kString "b"), [("rev", .vInt 2)])], 2⟩,
        [("rev", .vInt 1)], some (.kString "b")⟩) :=
  ⟨(claim_C3_revision_check [("x", .vInt 9)] [("rev", .vInt 2)] "rev" 2 rfl).1,
    (claim_C3_revision_check [("x", .vInt 9)] [("rev", .vInt 2)] "rev" 2 rfl).2.1 rfl,
    (claim_C3_revision_check [("rev", .vString "two")] [("rev", .vInt 2)] "rev" 2 rfl).2.2.1
      (.vString "two") rfl (fun m h => Value.noConfusion h),
    (claim_C3_revision_check [("rev", .vInt 1)] [("rev", .vInt 2)] "rev" 2 rfl).2.2.2.1
      1 rfl (by decide),
    (claim_C3_revision_check [("rev", .vInt 2)] [("rev", .vInt 2)] "rev" 2 rfl).2.2.2.2.1 rfl,
    (claim_C3_revision_check [] [("rev", .vInt 2)] "rev" 2 rfl).2.2.2.2.2
      ⟨"name", "rev", [(some (.kString "b"), [("rev", .vInt 2)])], 2⟩
      ⟨.put, [("rev", .vInt 1)], some (.kString "b"), [], [], 0⟩
      (.kString "b") [("rev", .vInt 2)]
      (.gc .FailedPrecondition "mismatched revisions") (Or.inl rfl) rfl rfl rfl⟩

/-! ### Claim C8 — cancellation -/

/-- Claim C8: the context is checked before the mutex is acquired and
before any read of the store; an already-canceled context fails the action
with the cancellation error, with the collection, the caller's document and
the key untouched. (An action whose check passed is atomic in this
sequential model — its critical section runs to completion — and nothing in
the engine rolls an applied action back.) -/
theorem claim_C8_canceled_context_short_circuits (c : Collection) (a : DriverAction) :
    runAction true c a = ⟨.err .canceled, c, a.doc, a.key⟩ := rfl

/-! ### Claim C10 — commit into a nil parent map -/

/-- Claim C10 (refuted; the failing execution): updating an existing
document whose field `a` is absent with the single modification
`a.b := "x"` passes planning — `getParentMap` with `create=false` returns a
nil map and no error — and the commit phase then assigns into that nil map:
a Go runtime panic, modelled as `Res.panic`, both at `collection.update`
and through `collection.runAction`. -/
theorem claim_C10_update_nil_parent_panics :
    update [("DocstoreRevision", .vInt 1)] [⟨["a", "b"], .set (.vString "x")⟩]
      "DocstoreRevision" 1 = .panic ∧
    runAction false
      ⟨"name", "DocstoreRevision", [(some (.kString "k"), [("DocstoreRevision", .vInt 1)])], 1⟩
      ⟨.update, [], some (.kString "k"), [], [⟨["a", "b"], .set (.vString "x")⟩], 0⟩ =
    ⟨.panic,
      ⟨"name", "DocstoreRevision", [(some (.kString "k"), [("DocstoreRevision", .vInt 1)])], 1⟩,
      [], some (.kString "k")⟩ :=
  ⟨rfl, rfl⟩

/-- With no stored document the revision check returns immediately. -/
theorem checkRevision_none (arg : DocMap) (rf : String) :
    checkRevision arg none rf = .ok () := rfl

/-! ### Claim C5 — per-kind presence outcomes -/

/-- Claim C5: Create on a present key fails `AlreadyExists`; Replace,
Update and Get on an absent key fail `NotFound`; Delete on an absent key
succeeds silently; in each failing case the collection is unchanged; and
deleting twice is equivalent to deleting once. -/
theorem claim_C5_presence_outcomes (c : Collection) (a : DriverAction) :
    (∀ (k : PrimKey) (d : DocMap), a.kind = .create → a.key = some k →
      docsGet c.docs (some k) = some d →
      runAction false c a =
        ⟨.err (.gc .AlreadyExists "Create: document with key exists"), c, a.doc, a.key⟩) ∧
    ((a.kind = .replace ∨ a.kind = .update ∨ a.kind = .get) →
      docsGet c.docs a.key = none →
      runAction false c a =
        ⟨.err (.gc .NotFound "document with key does not exist"), c, a.doc, a.key⟩) ∧
    (a.kind = .delete → docsGet c.docs a.key = none →
      runAction false c a = ⟨.ok (), c, a.doc, a.key⟩) ∧
    (a.kind = .delete →
      runAction false (runAction false c a).coll a = runAction false c a) := by
  refine ⟨?_, ?_, ?_, ?_⟩
  · intro k d hkind hkey hd
    simp [runAction, hkind, hkey, hd]
  · intro hkind habs
    have hcur : (if a.key.isSome then docsGet c.docs a.key else none) = none := by
      cases hk : a.key with
      | none => simp
      | some k => simpa [hk] using habs
    rcases hkind with h | h | h <;> simp [runAction, h, hcur]
  · intro hkind habs
    have hcur : (if a.key.isSome then docsGet c.docs a.key else none) = none := by
      cases hk : a.key with
      | none => simp
      | some k => simpa [hk] using habs
    have hdel : docsDel c.docs a.key = c.docs := docsDel_of_docsGet_none c.docs a.key habs
    simp [runAction, hkind, hcur, checkRevision_none, hdel]
  · intro hkind
    cases hk : a.key with
    | none =>
      simp [runAction, hkind, hk, checkRevision_none, docsDel_docsDel]
    | some k =>
      cases hd : docsGet c.docs (some k) with
      | none =>
        have hdel := docsDel_of_docsGet_none c.docs (some k) hd
        simp [runAction, hkind, hk, hd, checkRevision_none, hdel]
      | some cur =>
        cases hcr : checkRevision a.doc (some cur) c.revisionField with
        | ok u =>
          have hd2 : docsGet (docsDel c.docs (some k)) (some k) = none :=
            docsGet_docsDel_self c.docs (some k)
          simp [runAction, hkind, hk, hd, hcr, hd2, checkRevision_none, docsDel_docsDel]
        | err e => simp [runAction, hkind, hk, hd, hcr]
        | panic => simp [runAction, hkind, hk, hd, hcr]

/-- Witness for C5 at concrete inputs: a second Create of key `b` fails
`AlreadyExists` leaving the store unchanged; Replace of a missing key fails
`NotFound`; Delete of a missing key succeeds silently; Delete twice equals
Delete once. -/
theorem claim_C5_witness :
    (runAction false ⟨"name", "rev", [(some (.kString "b"), [("name", .vString "b"), ("rev", .vInt 1)])], 1⟩
        ⟨.create, [("name", .vString "b")], some (.kString "b"), [], [], 0⟩ =
      ⟨.err (.gc .AlreadyExists "Create: document with key exists"),
        ⟨"name", "rev", [(some (.kString "b"), [("name", .vString "b"), ("rev", .vInt 1)])], 1⟩,
        [("name", .vString "b")], some (.kString "b")⟩) ∧
    (runAction false ⟨"name", "rev", [], 0⟩
        ⟨.replace, [("name", .vString "z")], some (.kString "z"), [], [], 0⟩ =
      ⟨.err (.gc .NotFound "document with key does not exist"),
        ⟨"name", "rev", [], 0⟩, [("name", .vString "z")], some (.kString "z")⟩) ∧
    (runAction false ⟨"name", "rev", [], 0⟩
        ⟨.delete, [("name", .vString "z")], some (.kString "z"), [], [], 0⟩ =
      ⟨.ok (), ⟨"name", "rev", [], 0⟩, [("name", .vString "z")], some (.kString "z")⟩) ∧
    (runAction false
        (runAction false ⟨"name", "rev", [(some (.kString "b"), [("rev", .vInt 1)])], 1⟩
          ⟨.delete, [], some (.kString "b"), [], [], 0⟩).coll
        ⟨.delete, [], some (.kString "b"), [], [], 0⟩ =
      runAction false ⟨"name", "rev", [(some (.kString "b"), [("rev", .vInt 1)])], 1⟩
        ⟨.delete, [], some (.kString "b"), [], [], 0⟩) :=
  ⟨(claim_C5_presence_outcomes _ _).1 (.kString "b") [("name", .vString "b"), ("rev", .vInt 1)]
      rfl rfl rfl,
    (claim_C5_presence_outcomes _ _).2.1 (Or.inl rfl) rfl,
    (claim_C5_presence_outcomes _ _).2.2.1 rfl rfl,
    (claim_C5_presence_outcomes _ _).2.2.2 rfl⟩

/-! ### Structural lemmas about one action -/

/-- Helper `putCase` either succeeds — storing the revision-stamped document under
the key and advancing the counter by one — or fails (error or panic)
leaving the collection untouched. -/
theorem putCase_shape (c : Collection) (key : Option PrimKey) (doc : DocMap)
    (current : Option DocMap) :
    putCase c key doc current =
      ⟨.ok (),
        ⟨c.keyField, c.revisionField,
          docsSet c.docs key (mapSet doc c.revisionField (.vInt (c.curRevision + 1))),
          c.curRevision + 1⟩,
        mapSet doc c.revisionField (.vInt (c.curRevision + 1)), key⟩ ∨
    (∃ e, putCase c key doc current = ⟨.err e, c, doc, key⟩) ∨
    putCase c key doc current = ⟨.panic, c, doc, key⟩ := by
  unfold putCase
  cases hcr : checkRevision doc current c.revisionField with
  | ok u => left; rfl
  | err e => right; left; exact ⟨e, rfl⟩
  | panic => right; right; rfl

/-- A successful `update` commits the planned mods and stamps the next
revision. -/
theorem update_ok_shape (doc : DocMap) (mods : List DriverMod) (rf : String) (n : Int)
    (du : DocMap × Int) (h : update doc mods rf n = .ok du) :
    ∃ doc2, du = (mapSet doc2 rf (.vInt (n + 1)), n + 1) ∧
      ∃ gm, planMods doc (sortMods mods) = .ok gm ∧ commitMods doc gm = .ok doc2 := by
  unfold update at h
  cases hp : planMods doc (sortMods mods) with
  | ok gm =>
    rw [hp] at h
    replace h : (match commitMods doc gm with
      | .err e => (Res.err e : Res (DocMap × Int))
      | .panic => .panic
      | .ok doc2 => .ok (changeRevision doc2 rf n)) = .ok du := h
    cases hc : commitMods doc gm with
    | ok doc2 =>
      rw [hc] at h
      replace h : Res.ok (changeRevision doc2 rf n) = .ok du := h
      cases h
      exact ⟨doc2, rfl, gm, rfl, hc⟩
    | err e =>
      rw [hc] at h
      exact Res.noConfusion h
    | panic =>
      rw [hc] at h
      exact Res.noConfusion h
  | err e =>
    rw [hp] at h
    exact Res.noConfusion (show Res.err e = Res.ok du from h)
  | panic =>
    rw [hp] at h
    exact Res.noConfusion (show Res.panic = Res.ok du from h)

/-- The shape of every `runAction` outcome: a failure (error or panic)
leaves the collection untouched; a successful `Get` leaves it untouched; a
successful `Delete` removes the key and keeps the counter; a successful
write (`Create`/`Put`/`Replace`/`Update`) stores one revision-stamped
document under one key and advances the counter by exactly one. -/
theorem runAction_shape (b : Bool) (c : Collection) (a : DriverAction) :
    ((runAction b c a).out ≠ .ok () ∧ (runAction b c a).coll = c) ∨
    ((runAction b c a).out = .ok () ∧
      ((a.kind = .get ∧ (runAction b c a).coll = c) ∨
       (a.kind = .delete ∧
         (runAction b c a).coll =
           ⟨c.keyField, c.revisionField, docsDel c.docs a.key, c.curRevision⟩) ∨
       (stampsRevision a.kind = true ∧
         ∃ (key : Option PrimKey) (doc2 : DocMap),
           (runAction b c a).coll =
             ⟨c.keyField, c.revisionField,
               docsSet c.docs key (mapSet doc2 c.revisionField (.vInt (c.curRevision + 1))),
               c.curRevision + 1⟩))) := by
  cases b with
  | true => exact Or.inl ⟨by simp [runAction], rfl⟩
  | false =>
    cases hkind : a.kind with
    | create =>
      cases hk : a.key with
      | some k =>
        cases hd : docsGet c.docs (some k) with
        | some d =>
          exact Or.inl ⟨by simp [runAction, hkind, hk, hd], by simp [runAction, hkind, hk, hd]⟩
        | none =>
          have hra : runAction false c a = putCase c (some k) a.doc none := by
            simp [runAction, hkind, hk, hd]
          rcases putCase_shape c (some k) a.doc none with h | ⟨e, h⟩ | h <;> rw [hra, h]
          · exact Or.inr ⟨rfl, Or.inr (Or.inr ⟨rfl, some k, a.doc, rfl⟩)⟩
          · exact Or.inl ⟨by simp, rfl⟩
          · exact Or.inl ⟨by simp, rfl⟩
      | none =>
        have hra : runAction false c a =
            putCase c (some (.kString (uniqueString c.docs)))
              (mapSet a.doc c.keyField (.vString (uniqueString c.docs))) none := by
          simp [runAction, hkind, hk]
        rcases putCase_shape c (some (.kString (uniqueString c.docs)))
            (mapSet a.doc c.keyField (.vString (uniqueString c.docs))) none with h | ⟨e, h⟩ | h <;>
          rw [hra, h]
        · exact Or.inr ⟨rfl, Or.inr (Or.inr
            ⟨rfl, some (.kString (uniqueString c.docs)),
              mapSet a.doc c.keyField (.vString (uniqueString c.docs)), rfl⟩)⟩
        · exact Or.inl ⟨by simp, rfl⟩
        · exact Or.inl ⟨by simp, rfl⟩
    | replace =>
      cases hk : a.key with
      | none => exact Or.inl ⟨by simp [runAction, hkind, hk], by simp [runAction, hkind, hk]⟩
      | some k =>
        cases hd : docsGet c.docs (some k) with
        | none =>
          exact Or.inl ⟨by simp [runAction, hkind, hk, hd], by simp [runAction, hkind, hk, hd]⟩
        | some cur =>
          have hra : runAction false c a = putCase c (some k) a.doc (some cur) := by
            simp [runAction, hkind, hk, hd]
          rcases putCase_shape c (some k) a.doc (some cur) with h | ⟨e, h⟩ | h <;> rw [hra, h]
          · exact Or.inr ⟨rfl, Or.inr (Or.inr ⟨rfl, some k, a.doc, rfl⟩)⟩
          · exact Or.inl ⟨by simp, rfl⟩
          · exact Or.inl ⟨by simp, rfl⟩
    | put =>
      have hra : runAction false c a =
          putCase c a.key a.doc (if a.key.isSome then docsGet c.docs a.key else none) := by
        simp [runAction, hkind]
      rcases putCase_shape c a.key a.doc
          (if a.key.isSome then docsGet c.docs a.key else none) with h | ⟨e, h⟩ | h <;> rw [hra, h]
      · exact Or.inr ⟨rfl, Or.inr (Or.inr ⟨rfl, a.key, a.doc, rfl⟩)⟩
      · exact Or.inl ⟨by simp, rfl⟩
      · exact Or.inl ⟨by simp, rfl⟩
    | delete =>
      cases hcr : checkRevision a.doc (if a.key.isSome then docsGet c.docs a.key else none)
          c.revisionField with
      | ok u => exact Or.inr ⟨by simp [runAction, hkind, hcr],
          Or.inr (Or.inl ⟨rfl, by simp [runAction, hkind, hcr]⟩)⟩
      | err e => exact Or.inl ⟨by simp [runAction, hkind, hcr], by simp [runAction, hkind, hcr]⟩
      | panic => exact Or.inl ⟨by simp [runAction, hkind, hcr], by simp [runAction, hkind, hcr]⟩
    | update =>
      cases hk : a.key with
      | none => exact Or.inl ⟨by simp [runAction, hkind, hk], by simp [runAction, hkind, hk]⟩
      | some k =>
        cases hd : docsGet c.docs (some k) with
        | none =>
          exact Or.inl ⟨by simp [runAction, hkind, hk, hd], by simp [runAction, hkind, hk, hd]⟩
        | some cur =>
          cases hcr : checkRevision a.doc (some cur) c.revisionField with
          | err e =>
            exact Or.inl ⟨by simp [runAction, hkind, hk, hd, hcr],
              by simp [runAction, hkind, hk, hd, hcr]⟩
          | panic =>
            exact Or.inl ⟨by simp [runAction, hkind, hk, hd, hcr],
              by simp [runAction, hkind, hk, hd, hcr]⟩
          | ok u =>
            cases hupd : update cur a.mods c.revisionField c.curRevision with
            | err e =>
              exact Or.inl ⟨by simp [runAction, hkind, hk, hd, hcr, hupd],
                by simp [runAction, hkind, hk, hd, hcr, hupd]⟩
            | panic =>
              exact Or.inl ⟨by simp [runAction, hkind, hk, hd, hcr, hupd],
                by simp [runAction, hkind, hk, hd, hcr, hupd]⟩
            | ok du =>
              rcases update_ok_shape _ _ _ _ du hupd with ⟨doc2, hdu, -⟩
              subst hdu
              have hra : runAction false c a =
                  ⟨.ok (),
                    ⟨c.keyField, c.revisionField,
                      docsSet c.docs (some k)
                        (mapSet doc2 c.revisionField (.vInt (c.curRevision + 1))),
                      c.curRevision + 1⟩,
                    mapSet a.doc c.revisionField (.vInt (c.curRevision + 1)), some k⟩ := by
                simp [runAction, hkind, hk, hd, hcr, hupd]
              rw [hra]
              exact Or.inr ⟨rfl, Or.inr (Or.inr ⟨rfl, some k, doc2, rfl⟩)⟩
    | get =>
      cases hk : a.key with
      | none => exact Or.inl ⟨by simp [runAction, hkind, hk], by simp [runAction, hkind, hk]⟩
      | some k =>
        cases hd : docsGet c.docs (some k) with
        | none =>
          exact Or.inl ⟨by simp [runAction, hkind, hk, hd], by simp [runAction, hkind, hk, hd]⟩
        | some cur =>
          cases hdec : decodeDoc cur a.doc a.fieldPaths c.revisionField with
          | ok d2 => exact Or.inr ⟨by simp [runAction, hkind, hk, hd, hdec],
              Or.inl ⟨rfl, by simp [runAction, hkind, hk, hd, hdec]⟩⟩
          | err e =>
            exact Or.inl ⟨by simp [runAction, hkind, hk, hd, hdec],
              by simp [runAction, hkind, hk, hd, hdec]⟩
          | panic =>
            exact Or.inl ⟨by simp [runAction, hkind, hk, hd, hdec],
              by simp [runAction, hkind, hk, hd, hdec]⟩

/-- A document found after a map delete was already there before. -/
theorem docsGet_docsDel_some (ds : Docs) (k0 k : Option PrimKey) (d : DocMap)
    (h : docsGet (docsDel ds k0) k = some d) : docsGet ds k = some d := by
  by_cases hk : k = k0
  · subst hk
    rw [docsGet_docsDel_self ds k] at h
    cases h
  · rwa [docsGet_docsDel_ne ds k0 k hk] at h

/-- No action ever decreases the revision counter. -/
theorem runAction_counter_mono (b : Bool) (c : Collection) (a : DriverAction) :
    c.curRevision ≤ (runAction b c a).coll.curRevision := by
  rcases runAction_shape b c a with ⟨-, h⟩ | ⟨-, ⟨-, h⟩ | ⟨-, h⟩ | ⟨-, key, d2, h⟩⟩ <;>
    simp [h]

/-- No action list ever decreases the revision counter. -/
theorem execList_counter_mono (as : List DriverAction) (c : Collection) :
    c.curRevision ≤ (execList c as).curRevision := by
  induction as generalizing c with
  | nil => exact le_refl _
  | cons a rest ih =>
    exact le_trans (runAction_counter_mono false c a) (ih (runAction false c a).coll)

/-- Every action preserves the revision invariant. -/
theorem runAction_preserves_RevInv (b : Bool) (c : Collection) (a : DriverAction)
    (hinv : RevInv c) : RevInv (runAction b c a).coll := by
  obtain ⟨hnn, hdocs⟩ := hinv
  rcases runAction_shape b c a with ⟨-, h⟩ | ⟨-, ⟨-, h⟩ | ⟨-, h⟩ | ⟨-, key, d2, h⟩⟩ <;> rw [h]
  · exact ⟨hnn, hdocs⟩
  · exact ⟨hnn, hdocs⟩
  · refine ⟨hnn, fun k d hk => ?_⟩
    exact hdocs k d (docsGet_docsDel_some c.docs a.key k d hk)
  · refine ⟨by simp; omega, fun k d hk => ?_⟩
    by_cases hkey : k = key
    · subst hkey
      rw [docsGet_docsSet_self] at hk
      cases hk
      exact ⟨c.curRevision + 1, mapGet_mapSet_self _ _ _, by omega, le_refl _⟩
    · rw [docsGet_docsSet_ne c.docs key k _ hkey] at hk
      obtain ⟨n, hn, hpos, hle⟩ := hdocs k d hk
      exact ⟨n, hn, hpos, by simp; omega⟩

/-! ### Claim C2 — revision counter invariant and monotonicity -/

/-- Claim C2: the counter starts at zero; every successful write
(Create/Put/Replace/Update) advances it by exactly one and stamps the new
value into the stored document's revision field (so the first stamped
revision is one); no action decreases the counter; the revision invariant —
every stored document carries a nonzero int64 revision at most the counter —
is preserved by every action; and of two successful writes to the same key,
the second stamps the strictly larger revision. -/
theorem claim_C2_revision_invariant :
    (∀ kf rf : String, ∀ c0 : Collection, newCollection kf rf = .ok c0 →
      c0.curRevision = 0 ∧ c0.docs = []) ∧
    (∀ (c : Collection) (a : DriverAction), stampsRevision a.kind = true →
      (runAction false c a).out = .ok () →
      (runAction false c a).coll.curRevision = c.curRevision + 1 ∧
      ∃ (key : Option PrimKey) (d : DocMap),
        docsGet (runAction false c a).coll.docs key = some d ∧
        mapGet d c.revisionField = some (.vInt (c.curRevision + 1))) ∧
    (∀ (b : Bool) (c : Collection) (a : DriverAction), RevInv c →
      RevInv (runAction b c a).coll) ∧
    (∀ (b : Bool) (c : Collection) (a : DriverAction),
      c.curRevision ≤ (runAction b c a).coll.curRevision) ∧
    (∀ (c : Collection) (a1 : DriverAction) (mid : List DriverAction) (a2 : DriverAction),
      stampsRevision a1.kind = true → stampsRevision a2.kind = true → a1.key = a2.key →
      (runAction false c a1).out = .ok () →
      (runAction false (execList (runAction false c a1).coll mid) a2).out = .ok () →
      (runAction false c a1).coll.curRevision <
        (runAction false (execList (runAction false c a1).coll mid) a2).coll.curRevision) := by
  have hwrite : ∀ (c : Collection) (a : DriverAction), stampsRevision a.kind = true →
      (runAction false c a).out = .ok () →
      (runAction false c a).coll.curRevision = c.curRevision + 1 ∧
      ∃ (key : Option PrimKey) (d : DocMap),
        docsGet (runAction false c a).coll.docs key = some d ∧
        mapGet d c.revisionField = some (.vInt (c.curRevision + 1)) := by
    intro c a hst hok
    rcases runAction_shape false c a with ⟨hne, -⟩ | ⟨-, ⟨hg, -⟩ | ⟨hg, -⟩ | ⟨-, key, d2, h⟩⟩
    · exact absurd hok hne
    · rw [hg] at hst; cases hst
    · rw [hg] at hst; cases hst
    · rw [h]
      exact ⟨rfl, key, mapSet d2 c.revisionField (.vInt (c.curRevision + 1)),
        docsGet_docsSet_self _ _ _, mapGet_mapSet_self _ _ _⟩
  refine ⟨?_, hwrite, runAction_preserves_RevInv, runAction_counter_mono, ?_⟩
  · intro kf rf c0 h
    unfold newCollection at h
    by_cases hkf : kf = ""
    · rw [if_pos hkf] at h; cases h
    · rw [if_neg hkf] at h
      cases h
      exact ⟨rfl, rfl⟩
  · intro c a1 mid a2 h1 h2 hkey hok1 hok2
    have e1 := (hwrite c a1 h1 hok1).1
    have e2 := (hwrite (execList (runAction false c a1).coll mid) a2 h2 hok2).1
    have hm := execList_counter_mono mid (runAction false c a1).coll
    omega

/-- Witness for C2: from the empty collection, a Put of key `b` stamps
revision 1 = 0 + 1 into the stored document, and a second Put of the same
key (after no intervening actions) stamps a strictly larger revision. -/
theorem claim_C2_witness :
    ((runAction false ⟨"name", "rev", [], 0⟩
        ⟨.put, [("name", .vString "b")], some (.kString "b"), [], [], 0⟩).coll.curRevision =
      0 + 1 ∧
     ∃ (key : Option PrimKey) (d : DocMap),
        docsGet (runAction false ⟨"name", "rev", [], 0⟩
          ⟨.put, [("name", .vString "b")], some (.kString "b"), [], [], 0⟩).coll.docs key =
          some d ∧
        mapGet d "rev" = some (.vInt (0 + 1))) ∧
    (runAction false ⟨"name", "rev", [], 0⟩
        ⟨.put, [("name", .vString "b")], some (.kString "b"), [], [], 0⟩).coll.curRevision <
      (runAction false
        (execList (runAction false ⟨"name", "rev", [], 0⟩
          ⟨.put, [("name", .vString "b")], some (.kString "b"), [], [], 0⟩).coll [])
        ⟨.put, [("name", .vString "c")], some (.kString "b"), [], [], 1⟩).coll.curRevision :=
  ⟨claim_C2_revision_invariant.2.1 ⟨"name", "rev", [], 0⟩
      ⟨.put, [("name", .vString "b")], some (.kString "b"), [], [], 0⟩ rfl rfl,
    claim_C2_revision_invariant.2.2.2.2 ⟨"name", "rev", [], 0⟩
      ⟨.put, [("name", .vString "b")], some (.kString "b"), [], [], 0⟩ []
      ⟨.put, [("name", .vString "c")], some (.kString "b"), [], [], 1⟩ rfl rfl rfl rfl rfl⟩

/-! ### Claim C6 — Create with no key -/

/-- Every key in the map is at most the running maximum string length. -/
theorem keyStrLen_le_maxKeyLen (ds : Docs) (e : Option PrimKey × DocMap) (he : e ∈ ds) :
    keyStrLen e.1 ≤ maxKeyLen ds := by
  induction ds with
  | nil => cases he
  | cons x t ih =>
    rcases List.mem_cons.mp he with h | h
    · subst h
      exact le_max_left _ _
    · exact le_trans (ih h) (le_max_right _ _)

/-- A string key strictly longer than every stored string key is not in
the map. -/
theorem docsGet_string_longer_none (ds : Docs) (s : String)
    (hlen : ∀ e ∈ ds, keyStrLen e.1 < s.length) :
    docsGet ds (some (.kString s)) = none := by
  induction ds with
  | nil => rfl
  | cons x t ih =>
    obtain ⟨k', d⟩ := x
    have hx := hlen (k', d) (List.mem_cons_self _ _)
    have hne : ¬(some (PrimKey.kString s) = k') := by
      cases k' with
      | none => simp
      | some pk =>
        cases pk with
        | kString s2 =>
          simp only [keyStrLen] at hx
          intro hcontra
          rw [Option.some_inj] at hcontra
          cases hcontra
          exact lt_irrefl _ hx
        | kInt n => simp
        | kFloat q => simp
        | kBool bb => simp
    rw [show docsGet ((k', d) :: t) (some (.kString s)) =
        if some (PrimKey.kString s) = k' then some d else docsGet t (some (.kString s)) from rfl,
      if_neg hne]
    exact ih fun e he => hlen e (List.mem_cons_of_mem _ he)

/-- The generated key is strictly longer than every stored string key. -/
theorem uniqueString_length (ds : Docs) : (uniqueString ds).length = maxKeyLen ds + 1 := by
  simp [uniqueString, String.length]

/-- The freshly generated key collides with no existing key. -/
theorem uniqueString_fresh (ds : Docs) :
    docsGet ds (some (.kString (uniqueString ds))) = none := by
  apply docsGet_string_longer_none
  intro e he
  have h1 := keyStrLen_le_maxKeyLen ds e he
  have h2 := uniqueString_length ds
  omega

/-- Claim C6: a Create whose key field is absent (nil key) generates a
fresh string colliding with no existing key, assigns it to the key field
of the caller's document, and inserts the (revision-stamped) document
under that key. -/
theorem claim_C6_create_generates_key (c : Collection) (a : DriverAction)
    (hkind : a.kind = .create) (hkey : a.key = none) :
    docsGet c.docs (some (.kString (uniqueString c.docs))) = none ∧
    runAction false c a =
      ⟨.ok (),
        ⟨c.keyField, c.revisionField,
          docsSet c.docs (some (.kString (uniqueString c.docs)))
            (mapSet (mapSet a.doc c.keyField (.vString (uniqueString c.docs)))
              c.revisionField (.vInt (c.curRevision + 1))),
          c.curRevision + 1⟩,
        mapSet (mapSet a.doc c.keyField (.vString (uniqueString c.docs)))
          c.revisionField (.vInt (c.curRevision + 1)),
        some (.kString (uniqueString c.docs))⟩ := by
  refine ⟨uniqueString_fresh c.docs, ?_⟩
  simp [runAction, hkind, hkey, putCase, checkRevision_none, changeRevision]

/-- Witness for C6: on a collection already holding key `k`, the generated
key is the fresh string `kk`, absent from the store, and the Create inserts
the caller's document (key field and revision stamped in) under it. -/
theorem claim_C6_witness :
    uniqueString [(some (.kString "k"), [("rev", .vInt 1)])] = "kk" ∧
    docsGet ([(some (.kString "k"), [("rev", .vInt 1)])] : Docs)
      (some (.kString (uniqueString [(some (.kString "k"), [("rev", .vInt 1)])]))) = none ∧
    runAction false ⟨"name", "rev", [(some (.kString "k"), [("rev", .vInt 1)])], 1⟩
      ⟨.create, [("x", .vInt 7)], none, [], [], 0⟩ =
      ⟨.ok (),
        ⟨"name", "rev",
          docsSet [(some (.kString "k"), [("rev", .vInt 1)])]
            (some (.kString (uniqueString [(some (.kString "k"), [("rev", .vInt 1)])])))
            (mapSet (mapSet [("x", .vInt 7)] "name"
                (.vString (uniqueString [(some (.kString "k"), [("rev", .vInt 1)])])))
              "rev" (.vInt (1 + 1))),
          1 + 1⟩,
        mapSet (mapSet [("x", .vInt 7)] "name"
            (.vString (uniqueString [(some (.kString "k"), [("rev", .vInt 1)])])))
          "rev" (.vInt (1 + 1)),
        some (.kString (uniqueString [(some (.kString "k"), [("rev", .vInt 1)])]))⟩ :=
  ⟨by decide,
    (claim_C6_create_generates_key ⟨"name", "rev", [(some (.kString "k"), [("rev", .vInt 1)])], 1⟩
      ⟨.create, [("x", .vInt 7)], none, [], [], 0⟩ rfl rfl).1,
    (claim_C6_create_generates_key ⟨"name", "rev", [(some (.kString "k"), [("rev", .vInt 1)])], 1⟩
      ⟨.create, [("x", .vInt 7)], none, [], [], 0⟩ rfl rfl).2⟩

/-! ### Claim C1 — update atomicity -/

/-- Claim C1: for an Update of an existing document (with a passing
revision check), a planning failure of any modification makes the whole
action return that error with the collection — in particular the stored
document — exactly as before the call; and a successful Update means every
modification planned successfully, the planned writes and deletes were
committed, and a fresh revision was stamped. -/
theorem claim_C1_update_atomicity (c : Collection) (a : DriverAction) (k : PrimKey)
    (cur : DocMap)
    (hkind : a.kind = .update) (hkey : a.key = some k)
    (hd : docsGet c.docs (some k) = some cur)
    (hcr : checkRevision a.doc (some cur) c.revisionField = .ok ()) :
    (∀ e : Err, planMods cur (sortMods a.mods) = .err e →
      runAction false c a = ⟨.err e, c, a.doc, a.key⟩) ∧
    ((runAction false c a).out = .ok () →
      ∃ gmods doc2, planMods cur (sortMods a.mods) = .ok gmods ∧
        commitMods cur gmods = .ok doc2 ∧
        runAction false c a =
          ⟨.ok (),
            ⟨c.keyField, c.revisionField,
              docsSet c.docs (some k)
                (mapSet doc2 c.revisionField (.vInt (c.curRevision + 1))),
              c.curRevision + 1⟩,
            mapSet a.doc c.revisionField (.vInt (c.curRevision + 1)), some k⟩) := by
  constructor
  · intro e hplan
    have hupd : update cur a.mods c.revisionField c.curRevision = .err e := by
      unfold update
      rw [hplan]
    simp [runAction, hkind, hkey, hd, hcr, hupd]
  · intro hok
    cases hupd : update cur a.mods c.revisionField c.curRevision with
    | err e => simp [runAction, hkind, hkey, hd, hcr, hupd] at hok
    | panic => simp [runAction, hkind, hkey, hd, hcr, hupd] at hok
    | ok du =>
      rcases update_ok_shape _ _ _ _ du hupd with ⟨doc2, hdu, gm, hp, hc⟩
      subst hdu
      exact ⟨gm, doc2, hp, hc, by simp [runAction, hkind, hkey, hd, hcr, hupd]⟩

/-- Witness for C1: updating the stored document
`[a: "A", rev: 5]` with the single modification `a.b := "X"` fails
planning (`a` is not a map) with `InvalidArgument` and leaves the
collection — counter and stored document — exactly as it was. -/
theorem claim_C1_witness :
    runAction false
      ⟨"name", "rev", [(some (.kString "k"), [("a", .vString "A"), ("rev", .vInt 5)])], 5⟩
      ⟨.update, [], some (.kString "k"), [], [⟨["a", "b"], .set (.vString "X")⟩], 0⟩ =
    ⟨.err (.gc .InvalidArgument "invalid field path"),
      ⟨"name", "rev", [(some (.kString "k"), [("a", .vString "A"), ("rev", .vInt 5)])], 5⟩,
      [], some (.kString "k")⟩ :=
  (claim_C1_update_atomicity
    ⟨"name", "rev", [(some (.kString "k"), [("a", .vString "A"), ("rev", .vInt 5)])], 5⟩
    ⟨.update, [], some (.kString "k"), [], [⟨["a", "b"], .set (.vString "X")⟩], 0⟩
    (.kString "k") [("a", .vString "A"), ("rev", .vInt 5)]
    rfl rfl rfl rfl).1 (.gc .InvalidArgument "invalid field path") rfl

/-! ### Claim C7 — BeforeDo -/

/-- An error slice holding the same error at every index yields the
(index, error) pair at every index. -/
theorem NewActionListError_replicate (n : Nat) (e : Err) :
    NewActionListError (List.replicate n (some e)) = (List.range n).map fun i => (i, e) := by
  have haux : ∀ (n k : Nat),
      (List.enumFrom k (List.replicate n (some e))).filterMap
        (fun p => p.2.map fun e2 => (p.1, e2)) = (List.range' k n).map fun i => (i, e) := by
    intro n
    induction n with
    | zero => intro k; rfl
    | succ m ih =>
      intro k
      simp only [List.replicate_succ, List.enumFrom_cons, List.filterMap_cons, Option.map_some',
        List.range'_succ, List.map_cons]
      rw [ih (k + 1)]
  rw [NewActionListError, List.enum, haux, List.range_eq_range']

/-- Claim C7: when a `BeforeDo` callback is present, `RunActions` invokes
it (exactly once, before any group runs, by the shape of `RunActions`)
with the probe that answers false to every request; a non-nil callback
error is recorded for every action in the list and the executor returns
immediately with the collection untouched. -/
theorem claim_C7_beforeDo_veto (ctxCanceled : Bool) (c : Collection)
    (actions : List DriverAction) (f : (Value → Bool) → Option Err) (e : Err)
    (h : f memProbe = some e) :
    (∀ v : Value, memProbe v = false) ∧
    RunActions ctxCanceled c actions ⟨some f⟩ =
      .done ((List.range actions.length).map fun i => (i, e)) c := by
  refine ⟨fun v => rfl, ?_⟩
  simp only [RunActions, h]
  rw [NewActionListError_replicate]

/-- Witness for C7: a callback that vetoes with an `Internal` error marks
both actions of a two-action list with that error and leaves the
collection untouched. -/
theorem claim_C7_witness :
    (∀ v : Value, memProbe v = false) ∧
    RunActions false ⟨"name", "rev", [], 0⟩
      [⟨.put, [("name", .vString "b")], some (.kString "b"), [], [], 0⟩,
       ⟨.get, [], some (.kString "b"), [], [], 1⟩]
      ⟨some fun _ => some (.gc .Internal "boom")⟩ =
    .done ((List.range 2).map fun i => (i, .gc .Internal "boom")) ⟨"name", "rev", [], 0⟩ :=
  claim_C7_beforeDo_veto false ⟨"name", "rev", [], 0⟩
    [⟨.put, [("name", .vString "b")], some (.kString "b"), [], [], 0⟩,
     ⟨.get, [], some (.kString "b"), [], [], 1⟩]
    (fun _ => some (.gc .Internal "boom")) (.gc .Internal "boom") rfl

/-! ### Claim C9 — URL re-open registry -/

/-- Appending a fresh registry entry makes it findable. -/
theorem urlCollsGet_append_self (l : List (String × UrlColl)) (n : String) (uc : UrlColl)
    (h : urlCollsGet l n = none) : urlCollsGet (l ++ [(n, uc)]) n = some uc := by
  induction l with
  | nil => simp [urlCollsGet]
  | cons x t ih =>
    obtain ⟨n', uc'⟩ := x
    by_cases hn : n' = n
    · rw [show urlCollsGet ((n', uc') :: t) n =
        (if n' = n then some uc' else urlCollsGet t n) from rfl, if_pos hn] at h
      cases h
    · rw [show urlCollsGet ((n', uc') :: t) n =
        (if n' = n then some uc' else urlCollsGet t n) from rfl, if_neg hn] at h
      rw [List.cons_append,
        show urlCollsGet ((n', uc') :: (t ++ [(n, uc)])) n =
          (if n' = n then some uc' else urlCollsGet (t ++ [(n, uc)]) n) from rfl,
        if_neg hn]
      exact ih h

/-- Claim C9 (amended): re-opening with the same URL returns the identical
collection and leaves the registry unchanged; a subsequent open of an
existing collection name with a different key-field name fails — with a
plain formatted error carrying no gcerr kind (classified `Unknown`), not
`InvalidArgument`; a query parameter, an empty collection name, and an
empty or slash-containing key field all fail. -/
theorem claim_C9_url_reopen_registry (o : URLOpener) (u : URLModel) :
    (∀ (coll : Collection) (o' : URLOpener), OpenCollectionURL o u = .ok (coll, o') →
      OpenCollectionURL o' u = .ok (coll, o')) ∧
    (∀ uc : UrlColl, u.query = [] → u.host ≠ "" →
      stripLeadingSlash u.path ≠ "" → containsSlash (stripLeadingSlash u.path) = false →
      urlCollsGet o.collections u.host = some uc →
      uc.keyName ≠ stripLeadingSlash u.path →
      OpenCollectionURL o u = .error (.generic "key name does not equal existing key name") ∧
      errCode (.generic "key name does not equal existing key name") = .Unknown) ∧
    (u.query ≠ [] → OpenCollectionURL o u = .error (.generic "invalid query parameter")) ∧
    (u.query = [] → u.host = "" →
      OpenCollectionURL o u = .error (.generic "empty collection name")) ∧
    (u.query = [] → u.host ≠ "" →
      (stripLeadingSlash u.path = "" ∨ containsSlash (stripLeadingSlash u.path) = true) →
      OpenCollectionURL o u =
        .error (.generic "invalid key name (must be non-empty and have no slashes)")) := by
  refine ⟨?_, ?_, ?_, ?_, ?_⟩
  · intro coll o' h
    unfold OpenCollectionURL at h ⊢
    by_cases hq : ¬u.query.isEmpty
    · rw [if_pos hq] at h; exact Except.noConfusion h
    · rw [if_neg hq] at h ⊢
      by_cases hh : u.host = ""
      · rw [if_pos hh] at h; exact Except.noConfusion h
      · rw [if_neg hh] at h ⊢
        by_cases hk : stripLeadingSlash u.path = "" ∨ containsSlash (stripLeadingSlash u.path)
        · rw [if_pos hk] at h; exact Except.noConfusion h
        · rw [if_neg hk] at h ⊢
          cases hg : urlCollsGet o.collections u.host with
          | none =>
            rw [hg] at h
            replace h : (match newCollection (stripLeadingSlash u.path) "" with
              | Except.error e => (Except.error e : Except Err (Collection × URLOpener))
              | Except.ok coll2 =>
                Except.ok (coll2, URLOpener.mk (o.collections ++
                  [(u.host, UrlColl.mk (stripLeadingSlash u.path) coll2)]))) =
                Except.ok (coll, o') := h
            have hnc : newCollection (stripLeadingSlash u.path) "" =
                .ok ⟨stripLeadingSlash u.path, DefaultRevisionField, [], 0⟩ := by
              unfold newCollection
              rw [if_neg (fun hcontra => hk (Or.inl hcontra))]
              rfl
            rw [hnc] at h
            replace h : Except.ok
                (Collection.mk (stripLeadingSlash u.path) DefaultRevisionField [] 0,
                  URLOpener.mk (o.collections ++ [(u.host,
                    UrlColl.mk (stripLeadingSlash u.path)
                      (Collection.mk (stripLeadingSlash u.path) DefaultRevisionField [] 0))])) =
                Except.ok (coll, o') := h
            injection h with h1
            injection h1 with hc ho
            subst hc
            subst ho
            rw [urlCollsGet_append_self o.collections u.host _ hg]
            exact if_pos rfl
          | some uc =>
            rw [hg] at h
            replace h : (if uc.keyName = stripLeadingSlash u.path then
                Except.ok (uc.coll, o)
              else (Except.error (Err.generic "key name does not equal existing key name") :
                Except Err (Collection × URLOpener))) =
                Except.ok (coll, o') := h
            by_cases huk : uc.keyName = stripLeadingSlash u.path
            · rw [if_pos huk] at h
              injection h with h1
              injection h1 with hc ho
              subst hc
              subst ho
              rw [hg]
              exact if_pos huk
            · rw [if_neg huk] at h
              exact Except.noConfusion h
  · intro uc hq hh hke hcs hg huk
    refine ⟨?_, rfl⟩
    unfold OpenCollectionURL
    rw [if_neg (by simp [hq]), if_neg hh, if_neg (by simp [hke, hcs]), hg]
    exact if_neg huk
  · intro hq
    unfold OpenCollectionURL
    rw [if_pos (by simpa using hq)]
  · intro hq hh
    unfold OpenCollectionURL
    rw [if_neg (by simp [hq]), if_pos hh]
  · intro hq hh hk
    unfold OpenCollectionURL
    rw [if_neg (by simp [hq]), if_neg hh, if_pos (by rcases hk with h | h <;> simp [h])]

/-- Counterexample for C9 as frozen: after opening `mem://c/id`, opening
`mem://c/other` fails with the plain error `fmt.Errorf` produces — whose
classification is `Unknown` — and not with a gcerr `InvalidArgument`. -/
theorem claim_C9_counterexample :
    OpenCollectionURL ⟨[]⟩ ⟨"c", "/id", []⟩ =
      .ok (⟨"id", "DocstoreRevision", [], 0⟩,
        ⟨[("c", ⟨"id", ⟨"id", "DocstoreRevision", [], 0⟩⟩)]⟩) ∧
    OpenCollectionURL ⟨[("c", ⟨"id", ⟨"id", "DocstoreRevision", [], 0⟩⟩)]⟩ ⟨"c", "/other", []⟩ =
      .error (.generic "key name does not equal existing key name") ∧
    (∀ msg : String,
      Err.generic "key name does not equal existing key name" ≠ Err.gc .InvalidArgument msg) ∧
    errCode (.generic "key name does not equal existing key name") ≠ .InvalidArgument :=
  ⟨rfl, rfl, fun msg h => Err.noConfusion h, by decide⟩

/-- Witness for C9 (amended claim) at concrete inputs: re-opening
`mem://c/id` returns the identical collection with the registry unchanged;
a query parameter, an empty collection name, and a slash-containing key
field fail. -/
theorem claim_C9_witness :
    (OpenCollectionURL ⟨[("c", ⟨"id", ⟨"id", "DocstoreRevision", [], 0⟩⟩)]⟩ ⟨"c", "/id", []⟩ =
      .ok (⟨"id", "DocstoreRevision", [], 0⟩,
        ⟨[("c", ⟨"id", ⟨"id", "DocstoreRevision", [], 0⟩⟩)]⟩)) ∧
    (OpenCollectionURL ⟨[]⟩ ⟨"c", "/id", [("param", "1")]⟩ =
      .error (.generic "invalid query parameter")) ∧
    (OpenCollectionURL ⟨[]⟩ ⟨"", "/id", []⟩ = .error (.generic "empty collection name")) ∧
    (OpenCollectionURL ⟨[]⟩ ⟨"c", "/a/b", []⟩ =
      .error (.generic "invalid key name (must be non-empty and have no slashes)")) :=
  ⟨(claim_C9_url_reopen_registry ⟨[]⟩ ⟨"c", "/id", []⟩).1
      ⟨"id", "DocstoreRevision", [], 0⟩ ⟨[("c", ⟨"id", ⟨"id", "DocstoreRevision", [], 0⟩⟩)]⟩ rfl,
    (claim_C9_url_reopen_registry ⟨[]⟩ ⟨"c", "/id", [("param", "1")]⟩).2.2.1 (by decide),
    (claim_C9_url_reopen_registry ⟨[]⟩ ⟨"", "/id", []⟩).2.2.2.1 rfl rfl,
    (claim_C9_url_reopen_registry ⟨[]⟩ ⟨"c", "/a/b", []⟩).2.2.2.2 rfl (by decide)
      (Or.inr (by decide))⟩
